import Mathlib

/-!
Shallow embedding of the `mcp-macos` repository's argument-marshaling and
output-parsing layer, and of its release helper script.

The repository's `src/` tree holds the test suite (`tests/test_mail.py`,
`tests/test_mail_tools.py`) and the release helper (`scripts/release.py`).
The `mcp_macos` package itself (modules `mcp_macos.utils`,
`mcp_macos.servers.mail`, `mcp_macos.tools.mail`,
`mcp_macos.utils.applescript`) is not present, so those definitions are
modelled from the specification, with the concrete argument orders, ceilings,
defaults and error messages pinned by the repository's own tests.
Text is modelled as `List Char` (`String.data`), so every definition is
executable and decidable on concrete inputs.
-/

namespace McpMacos

/-- Split a character list on every character satisfying `p`; the separator
characters are dropped and the (possibly empty) chunks between them are
returned in order.  This is the common core of the recipient splitter
(separators comma/semicolon/newline), the line splitter (newline) and the
field splitter (tab) of the output parser. -/
def splitBy (p : Char → Bool) : List Char → List (List Char)
  | [] => [[]]
  | c :: cs =>
    match splitBy p cs with
    | [] => [[]]
    | t :: ts => if p c then [] :: t :: ts else (c :: t) :: ts

/-- Interleave a first chunk with `(separator, chunk)` pairs:
`joinBy [(s1, a1), (s2, a2)] a0 = a0 ++ s1 :: a1 ++ s2 :: a2`.
Inverse shape of `splitBy` used to quantify over "any mix of separators". -/
def joinBy (pairs : List (Char × List Char)) (first : List Char) : List Char :=
  first ++ pairs.flatMap (fun q => q.1 :: q.2)

/-- Python `str.strip`: drop whitespace from both ends of a character list. -/
def trimChars (l : List Char) : List Char :=
  ((l.dropWhile Char.isWhitespace).reverse.dropWhile Char.isWhitespace).reverse

/-- The recipient separator set: comma, semicolon, newline. -/
def isSepChar (c : Char) : Bool :=
  c = ',' || c = ';' || c = '\n'

/-- Modelled from the spec: `split_recipients` of the missing module
`mcp_macos.utils` — parse one free-form string containing any mix of comma,
semicolon and newline separators into the ordered list of addresses, with
surrounding whitespace stripped and empty entries discarded (spec section 3,
RecipientList).  Core on character lists. -/
def splitRecipientsL (l : List Char) : List (List Char) :=
  ((splitBy isSepChar l).map trimChars).filter (fun t => !t.isEmpty)

/-- Modelled from the spec: `split_recipients` (`mcp_macos.utils`), on
`String`. -/
def split_recipients (s : String) : List String :=
  (splitRecipientsL s.data).map List.asString

/-- The two error kinds of the layer (spec section 7): validation errors are
raised by the marshaler before any external call, execution errors when the
external invocation fails or returns an unexpected scalar. -/
inductive MailError where
  | validation (msg : String)
  | execution (msg : String)
deriving DecidableEq

/-- A parsed field value: kept as a string or coerced to a boolean,
so that the parser's (non-)coercion of the read-status field is expressible. -/
inductive FieldValue where
  | str (s : String)
  | bool (b : Bool)
deriving DecidableEq

/-- Drop trailing empty lines (spec section 4.2 step 2). -/
def dropTrailingEmpty (ls : List (List Char)) : List (List Char) :=
  (ls.reverse.dropWhile List.isEmpty).reverse

/-- Split raw output into lines on the newline character and discard
trailing empty lines (spec section 4.2 step 2). -/
def linesOf (l : List Char) : List (List Char) :=
  dropTrailingEmpty (splitBy (fun c => c = '\n') l)

/-- Split one line on the tab column delimiter (spec section 4.2 step 2). -/
def fieldsOf (l : List Char) : List (List Char) :=
  splitBy (fun c => c = '\t') l

/-- Join a list of fields with single tab characters: the shape of one
record line of the external scripts' output. -/
def tabJoinL : List (List Char) → List Char
  | [] => []
  | f :: rest => joinBy (rest.map (fun g => ('\t', g))) f

/-- The list-emails record schema, in declared order, as pinned by
`tests/test_mail.py::test_list_emails_parses_results`:
id / received / from / account / status / subject / body. -/
def emailSchema : List String :=
  ["id", "received", "from", "account", "status", "subject", "body"]

/-- Modelled from the spec: one line of `mail_list_emails.applescript`
output is split on tabs and its fields are mapped positionally onto the
schema's named attributes (spec section 4.2 step 2); in the revision pinned
by `tests/test_mail.py` every field, the status field included, is kept as
a string. -/
def parseEmailLine (line : List Char) : List (String × FieldValue) :=
  emailSchema.zip ((fieldsOf line).map (fun f => FieldValue.str f.asString))

/-- Modelled from the spec: the list-emails output parser of the missing
module `mcp_macos.servers.mail` — one record per line. -/
def parse_email_lines (raw : String) : List (List (String × FieldValue)) :=
  (linesOf raw.data).map parseEmailLine

/-- Modelled from the spec: the accounts-listing parser of the missing
module `mcp_macos.tools.mail` — each line is a single account name
(spec section 4.2 step 4). -/
def parse_accounts (raw : String) : List String :=
  (linesOf raw.data).map List.asString

/-- Modelled from the spec: the mailboxes-listing parser of the missing
module `mcp_macos.tools.mail` — each line is a tab-joined
account/mailbox pair (spec section 4.2 step 4). -/
def parse_mailboxes (raw : String) : List (List (String × String)) :=
  (linesOf raw.data).map
    (fun line => (["account", "mailbox"]).zip ((fieldsOf line).map List.asString))

/-- Modelled from the spec: the recognized error sentinel check of the
output parser (spec section 4.2 step 1). -/
def hasErrorSentinel (raw : String) : Bool :=
  List.isPrefixOf ("ERROR:").data raw.data

/-- Modelled from the spec: the list-emails argument marshaler of the
missing module `mcp_macos.servers.mail`.  Defaults (limit 10, status
"any", empty strings) and the ceilings 30 and 500 are pinned by
`tests/test_mail.py`.  `none` stands for an omitted parameter. -/
def list_emails_args (limit : Option Int) (status account mailbox query : Option String) :
    List String :=
  [toString (min (limit.getD 10) 30), status.getD "any", account.getD "",
    mailbox.getD "", query.getD "", "500"]

/-- Modelled from the spec: the list-emails operation — marshal, invoke the
runner, parse.  The runner stands for the out-of-scope external script
invocation (script name and ordered string arguments to raw text). -/
def list_emails (run : String → List String → String) (limit : Option Int)
    (status account mailbox query : Option String) :
    Except MailError (List (List (String × FieldValue))) :=
  let raw := run "mail_list_emails.applescript"
      (list_emails_args limit status account mailbox query)
  if hasErrorSentinel raw then Except.error (MailError.execution raw)
  else Except.ok (parse_email_lines raw)

/-- Modelled from the spec: the send-email argument marshaler of the
missing module `mcp_macos.servers.mail` — subject, body, optional
message-id (empty string when absent), the counts of `to` and `cc`
entries, then the flattened `to` and `cc` addresses, as pinned by
`tests/test_mail.py::test_send_includes_cc`. -/
def send_email_args (toAddrs ccAddrs : List String) (subject body : String)
    (messageId : Option String) : List String :=
  [subject, body, messageId.getD "", toString toAddrs.length, toString ccAddrs.length]
    ++ toAddrs ++ ccAddrs

/-- Modelled from the spec: the send-email operation — scalar result "OK"
is success, anything else an execution error carrying the raw text. -/
def send_email (run : String → List String → String) (toAddrs ccAddrs : List String)
    (subject body : String) (messageId : Option String) :
    Except MailError String :=
  let raw := run "mail_send.applescript" (send_email_args toAddrs ccAddrs subject body messageId)
  if raw = "OK" then Except.ok raw else Except.error (MailError.execution raw)

/-- Modelled from the spec: the update-status operation of the missing
module `mcp_macos.servers.mail` — two positional arguments passed through
unchanged, scalar result "OK" is success, anything else an execution
error carrying the raw text. -/
def update_email_status (run : String → List String → String)
    (id action : String) : Except MailError String :=
  let raw := run "mail_update_email_status.applescript" [id, action]
  if raw = "OK" then Except.ok raw else Except.error (MailError.execution raw)

/-- Modelled from the spec: the get-latest argument marshaler of the
missing module `mcp_macos.tools.mail`; the ceiling 50 is pinned by
`tests/test_mail_tools.py::test_get_latest_clamps_limit`. -/
def get_latest_args (limit : Option Int) (account mailbox : Option String) :
    List String :=
  [toString (min (limit.getD 10) 50), account.getD "", mailbox.getD ""]

/-- Modelled from the spec: the search argument marshaler of the missing
module `mcp_macos.tools.mail` — search term then clamped limit. -/
def search_messages_args (searchTerm : String) (limit : Option Int) : List String :=
  [searchTerm, toString (min (limit.getD 10) 50)]

/-- Modelled from the spec: the search operation of the missing module
`mcp_macos.tools.mail` — a non-empty search term is required; an empty or
whitespace-only term is a validation error raised before any external
invocation (spec section 4.1).  On success the raw payload and the echoed
parameters are returned. -/
def search_messages (run : String → List String → String)
    (searchTerm : String) (limit : Option Int) :
    Except MailError (String × String × Int) :=
  if (trimChars searchTerm.data).isEmpty then
    Except.error (MailError.validation "Search term is required")
  else
    let raw := run "search_messages.applescript" (search_messages_args searchTerm limit)
    Except.ok (raw, searchTerm, min (limit.getD 10) 50)

/-- Modelled from the spec: the send operation of the missing module
`mcp_macos.tools.mail` — required fields are checked in the fixed order
`to` before `subject`, with the messages pinned by
`tests/test_mail_tools.py::test_send_message_validation_errors`; a scalar
result of exactly "OK" returns the result mapping, anything else is an
execution error. -/
def send_message (run : String → List String → String)
    (toAddr subject body cc bcc sender : String) :
    Except MailError (List (String × String)) :=
  if toAddr = "" then
    Except.error (MailError.validation "Recipient email (to) is required")
  else if subject = "" then
    Except.error (MailError.validation "Subject is required")
  else
    let raw := run "send_message.applescript" [toAddr, subject, body, cc, bcc, sender]
    if raw = "OK" then
      Except.ok [("status", "sent"), ("to", toAddr), ("subject", subject),
        ("used_sender", sender)]
    else Except.error (MailError.execution raw)

/-- From `src/scripts/release.py`, `_previous_version`: the previous
version is the `git show HEAD^:pyproject.toml` text (absent on a failed
subprocess) fed to the version loader (absent on a parse failure); either
failure yields `None`. -/
def previous_version (gitShow : Option String)
    (loadVersion : String → Option String) : Option String :=
  match gitShow with
  | none => none
  | some text => loadVersion text

/-- From `src/scripts/release.py`, `cmd_detect`:
`release_needed = previous != current or previous is None`, with
`previous` an optional string compared against the current version. -/
def detect_release_needed (previous : Option String) (current : String) : Bool :=
  (match previous with
    | none => true
    | some p => p != current) || previous.isNone

theorem splitBy_ne_nil (p : Char → Bool) (l : List Char) : splitBy p l ≠ [] := by
  induction l with
  | nil => simp [splitBy]
  | cons c cs ih =>
    simp only [splitBy]
    match h : splitBy p cs with
    | [] => exact absurd h ih
    | t :: ts =>
      by_cases hp : p c <;> simp [hp]

theorem splitBy_sep_cons (p : Char → Bool) (c : Char) (cs : List Char)
    (hc : p c = true) : splitBy p (c :: cs) = [] :: splitBy p cs := by
  simp only [splitBy]
  match h : splitBy p cs with
  | [] => exact absurd h (splitBy_ne_nil p cs)
  | t :: ts => simp [hc]

theorem splitBy_free_append (p : Char → Bool) (xs ys : List Char)
    (hx : ∀ c ∈ xs, p c = false) :
    splitBy p (xs ++ ys) =
      (xs ++ (splitBy p ys).headI) :: (splitBy p ys).tail := by
  induction xs with
  | nil =>
    simp only [List.nil_append]
    match h : splitBy p ys with
    | [] => exact absurd h (splitBy_ne_nil p ys)
    | t :: ts => simp
  | cons c cs ih =>
    have hc : p c = false := hx c (List.mem_cons_self c cs)
    have hcs : ∀ d ∈ cs, p d = false := fun d hd => hx d (List.mem_cons_of_mem c hd)
    simp only [List.cons_append, splitBy, List.append_eq]
    rw [ih hcs]
    simp [hc]

theorem splitBy_free (p : Char → Bool) (xs : List Char)
    (hx : ∀ c ∈ xs, p c = false) : splitBy p xs = [xs] := by
  have h := splitBy_free_append p xs [] hx
  simpa [splitBy] using h

/-- Splitting a joined list recovers exactly the chunks, provided no chunk
contains a separator character and every interleaved character is one. -/
theorem splitBy_joinBy (p : Char → Bool) (pairs : List (Char × List Char))
    (first : List Char)
    (hfree : ∀ a ∈ first :: pairs.map Prod.snd, ∀ c ∈ a, p c = false)
    (hsep : ∀ q ∈ pairs, p q.1 = true) :
    splitBy p (joinBy pairs first) = first :: pairs.map Prod.snd := by
  induction pairs generalizing first with
  | nil =>
    simp only [joinBy, List.flatMap_nil, List.append_nil, List.map_nil]
    exact splitBy_free p first (hfree first (List.mem_cons_self _ _))
  | cons q rest ih =>
    have hfirst : ∀ c ∈ first, p c = false :=
      hfree first (List.mem_cons_self _ _)
    have hq : p q.1 = true := hsep q (List.mem_cons_self _ _)
    have hrest : splitBy p (joinBy rest q.2) = q.2 :: rest.map Prod.snd := by
      refine ih q.2 ?_ (fun r hr => hsep r (List.mem_cons_of_mem q hr))
      intro a ha c hc
      have hmem : a ∈ first :: (q :: rest).map Prod.snd := by
        simp only [List.map_cons, List.mem_cons]
        rcases List.mem_cons.mp ha with h | h
        · exact Or.inr (Or.inl h)
        · exact Or.inr (Or.inr (by simpa using h))
      exact hfree a hmem c hc
    have hjoin : joinBy (q :: rest) first = first ++ q.1 :: joinBy rest q.2 := by
      simp [joinBy]
    rw [hjoin, splitBy_free_append p first _ hfirst,
      splitBy_sep_cons p q.1 _ hq, hrest]
    simp

/-- C2: for every input string in which addresses are separated by any mix of
commas, semicolons and newlines, `split_recipients` returns the addresses in
first-appearance left-to-right order, with surrounding whitespace stripped
from each entry, empty entries discarded, no separator characters retained,
and duplicates kept.  The input is quantified as a first chunk interleaved
with arbitrary separator/chunk pairs; the result is exactly the chunks, in
order, trimmed, with the entries that trim to empty removed. -/
theorem split_recipients_ordered (first : List Char)
    (pairs : List (Char × List Char))
    (hfree : ∀ a ∈ first :: pairs.map Prod.snd, ∀ c ∈ a, isSepChar c = false)
    (hsep : ∀ q ∈ pairs, isSepChar q.1 = true) :
    splitRecipientsL (joinBy pairs first) =
      ((first :: pairs.map Prod.snd).map trimChars).filter (fun t => !t.isEmpty) := by
  unfold splitRecipientsL
  rw [splitBy_joinBy isSepChar pairs first hfree hsep]

/-- Witness for C2 at the spec's example input. -/
theorem split_recipients_ordered_witness :
    split_recipients "one@x;two@x,three@x\n four@x" =
      ["one@x", "two@x", "three@x", "four@x"] := by
  have h := split_recipients_ordered ("one@x").data
      [(';', ("two@x").data), (',', ("three@x").data), ('\n', (" four@x").data)]
      (by decide) (by decide)
  have hdata : ("one@x;two@x,three@x\n four@x").data =
      joinBy [(';', ("two@x").data), (',', ("three@x").data), ('\n', (" four@x").data)]
        ("one@x").data := by decide
  unfold split_recipients
  rw [hdata, h]
  decide

/-- C1: for every list/search-style operation and every requested limit, the
marshaled limit equals the minimum of the requested limit and the
operation's ceiling (30 for list-emails, 50 for get-latest and search): a
limit above the ceiling is clamped down to exactly the ceiling, a limit at
or below it passes through unchanged, and the marshaled value never exceeds
the request. -/
theorem marshal_limit_clamped (limit : Int)
    (status account mailbox query : Option String) (term : String) :
    (list_emails_args (some limit) status account mailbox query).headI =
      toString (min limit 30)
  ∧ (get_latest_args (some limit) account mailbox).headI = toString (min limit 50)
  ∧ search_messages_args term (some limit) = [term, toString (min limit 50)]
  ∧ (30 ≤ limit →
      (list_emails_args (some limit) status account mailbox query).headI = "30")
  ∧ (limit ≤ 30 →
      (list_emails_args (some limit) status account mailbox query).headI = toString limit)
  ∧ (50 ≤ limit → (get_latest_args (some limit) account mailbox).headI = "50")
  ∧ (limit ≤ 50 →
      (get_latest_args (some limit) account mailbox).headI = toString limit)
  ∧ min limit 30 ≤ limit ∧ min limit 50 ≤ limit := by
  refine ⟨rfl, rfl, rfl, ?_, ?_, ?_, ?_, min_le_left _ _, min_le_left _ _⟩
  · intro h
    show toString (min limit 30) = "30"
    rw [min_eq_right h]
    rfl
  · intro h
    show toString (min limit 30) = toString limit
    rw [min_eq_left h]
  · intro h
    show toString (min limit 50) = "50"
    rw [min_eq_right h]
    rfl
  · intro h
    show toString (min limit 50) = toString limit
    rw [min_eq_left h]

/-- Witness for C1: limit 200 is clamped to the ceilings 30 and 50, limit 5
passes through unchanged. -/
theorem marshal_limit_clamped_witness :
    (list_emails_args (some 200) none none none none).headI = "30"
  ∧ (get_latest_args (some 200) none none).headI = "50"
  ∧ (list_emails_args (some 5) none none none none).headI = "5"
  ∧ (get_latest_args (some 5) none none).headI = "5" := by
  refine ⟨?_, ?_, ?_, ?_⟩
  · exact (marshal_limit_clamped 200 none none none none "").2.2.2.1 (by decide)
  · exact (marshal_limit_clamped 200 none none none none "").2.2.2.2.2.1 (by decide)
  · exact ((marshal_limit_clamped 5 none none none none "").2.2.2.2.1 (by decide)).trans
      (by decide)
  · exact ((marshal_limit_clamped 5 none none none none "").2.2.2.2.2.2.1 (by decide)).trans
      (by decide)

/-- C7: the list-emails marshaled argument sequence has exactly six positions
in the fixed order limit / status / account / mailbox / query / hard
ceiling; an omitted status defaults to "any", omitted account, mailbox and
query each still occupy their position as the empty string, and the hard
ceiling "500" is always appended. -/
theorem list_emails_marshal_order (limit : Option Int)
    (status account mailbox query : Option String) :
    list_emails_args limit status account mailbox query =
      [toString (min (limit.getD 10) 30), status.getD "any", account.getD "",
        mailbox.getD "", query.getD "", "500"]
  ∧ (list_emails_args limit status account mailbox query).length = 6
  ∧ list_emails_args limit none none none none =
      [toString (min (limit.getD 10) 30), "any", "", "", "", "500"]
  ∧ (list_emails_args limit status account mailbox query).getLast? = some "500"
  ∧ list_emails_args (some 50) (some "unread") (some "Work") (some "Inbox")
      (some "invoice") = ["30", "unread", "Work", "Inbox", "invoice", "500"] := by
  refine ⟨rfl, rfl, rfl, ?_, by decide⟩
  simp [list_emails_args]

/-- C8: for every valid send invocation the marshaled sequence is subject,
body, optional message-id (empty string when absent), the count of `to`
entries, the count of `cc` entries, then the flattened `to` addresses
followed by the flattened `cc` addresses, in exactly that order. -/
theorem send_email_marshal_order (toAddrs ccAddrs : List String)
    (subject body : String) (messageId : Option String) :
    send_email_args toAddrs ccAddrs subject body messageId =
      [subject, body, messageId.getD "", toString toAddrs.length,
        toString ccAddrs.length] ++ toAddrs ++ ccAddrs
  ∧ send_email_args ["primary@example.com"]
      ["copy1@example.com", "copy2@example.com"] "Subject" "Body" (some "123") =
      ["Subject", "Body", "123", "1", "2", "primary@example.com",
        "copy1@example.com", "copy2@example.com"]
  ∧ send_email_args ["a@example.com", "b@example.com", "c@example.com"] []
      "Subject" "Body" none =
      ["Subject", "Body", "", "3", "0", "a@example.com", "b@example.com",
        "c@example.com"] :=
  ⟨rfl, by decide, by decide⟩

/-- C3: for every send or update-status invocation, a raw scalar result equal
exactly to "OK" yields a success return value, and any other raw text —
"ERROR: ..." and "NOT_OK" included — yields an execution error carrying the
message text instead of a value. -/
theorem scalar_ok_protocol (raw msgId action : String)
    (toAddrs ccAddrs : List String) (subject body : String)
    (messageId : Option String) (toAddr cc bcc sender : String) :
    (raw = "OK" →
      update_email_status (fun _ _ => raw) msgId action = Except.ok "OK"
      ∧ send_email (fun _ _ => raw) toAddrs ccAddrs subject body messageId =
          Except.ok "OK")
  ∧ (raw ≠ "OK" →
      update_email_status (fun _ _ => raw) msgId action =
        Except.error (MailError.execution raw)
      ∧ send_email (fun _ _ => raw) toAddrs ccAddrs subject body messageId =
          Except.error (MailError.execution raw))
  ∧ (raw = "OK" → toAddr ≠ "" → subject ≠ "" →
      send_message (fun _ _ => raw) toAddr subject body cc bcc sender =
        Except.ok [("status", "sent"), ("to", toAddr), ("subject", subject),
          ("used_sender", sender)])
  ∧ (raw ≠ "OK" → toAddr ≠ "" → subject ≠ "" →
      send_message (fun _ _ => raw) toAddr subject body cc bcc sender =
        Except.error (MailError.execution raw)) := by
  refine ⟨?_, ?_, ?_, ?_⟩
  · intro h
    constructor <;> simp [update_email_status, send_email, h]
  · intro h
    constructor <;> simp [update_email_status, send_email, h]
  · intro h ht hs
    simp [send_message, h, ht, hs]
  · intro h ht hs
    simp [send_message, h, ht, hs]

/-- Witness for C3 at the raw results of the tests: "ERROR: message not
found", "NOT_OK" and "OK". -/
theorem scalar_ok_protocol_witness :
    update_email_status (fun _ _ => "ERROR: message not found") "999" "archive" =
      Except.error (MailError.execution "ERROR: message not found")
  ∧ send_email (fun _ _ => "NOT_OK") ["user@example.com"] [] "Hi" "Body" none =
      Except.error (MailError.execution "NOT_OK")
  ∧ update_email_status (fun _ _ => "OK") "123" "mark_read" = Except.ok "OK"
  ∧ send_message (fun _ _ => "NOT_OK") "user@example.com" "Hi" "Body" "" "" "" =
      Except.error (MailError.execution "NOT_OK") := by
  refine ⟨?_, ?_, ?_, ?_⟩
  · exact ((scalar_ok_protocol "ERROR: message not found" "999" "archive" [] []
      "" "" none "" "" "" "").2.1 (by decide)).1
  · exact ((scalar_ok_protocol "NOT_OK" "" "" ["user@example.com"] [] "Hi" "Body"
      none "" "" "" "").2.1 (by decide)).2
  · exact ((scalar_ok_protocol "OK" "123" "mark_read" [] [] "" "" none
      "" "" "" "").1 rfl).1
  · exact (scalar_ok_protocol "NOT_OK" "" "" [] [] "Hi" "Body" none
      "user@example.com" "" "" "").2.2.2 (by decide) (by decide) (by decide)

/-- C4: a search invocation whose term is empty or whitespace-only fails with
a validation error (not an execution error), and the external runner is
never called: the result does not depend on the runner at all. -/
theorem search_term_validation (run1 run2 : String → List String → String)
    (term : String) (limit : Option Int)
    (h : (trimChars term.data).isEmpty = true) :
    search_messages run1 term limit =
      Except.error (MailError.validation "Search term is required")
  ∧ search_messages run1 term limit = search_messages run2 term limit := by
  constructor <;> simp [search_messages, h]

/-- Witness for C4 at the empty and at a whitespace-only term. -/
theorem search_term_validation_witness :
    search_messages (fun _ _ => "A") "" none =
      Except.error (MailError.validation "Search term is required")
  ∧ search_messages (fun _ _ => "A") "   " (some 5) =
      Except.error (MailError.validation "Search term is required") :=
  ⟨(search_term_validation (fun _ _ => "A") (fun _ _ => "B") "" none
      (by decide)).1,
   (search_term_validation (fun _ _ => "A") (fun _ _ => "B") "   " (some 5)
      (by decide)).1⟩

/-- C5: send validates required fields in the fixed order `to` before
`subject`: an empty `to` yields the validation error naming the "to" field
regardless of the other fields, a non-empty `to` with an empty `subject`
yields the validation error naming the subject — in both cases before any
external invocation (the result does not depend on the runner). -/
theorem send_required_fields_order (run run2 : String → List String → String)
    (toAddr subject body cc bcc sender : String) :
    (toAddr = "" →
      send_message run toAddr subject body cc bcc sender =
        Except.error (MailError.validation "Recipient email (to) is required")
      ∧ send_message run toAddr subject body cc bcc sender =
          send_message run2 toAddr subject body cc bcc sender)
  ∧ (toAddr ≠ "" → subject = "" →
      send_message run toAddr subject body cc bcc sender =
        Except.error (MailError.validation "Subject is required")
      ∧ send_message run toAddr subject body cc bcc sender =
          send_message run2 toAddr subject body cc bcc sender) := by
  constructor
  · intro h
    constructor <;> simp [send_message, h]
  · intro h1 h2
    constructor <;> simp [send_message, h1, h2]

/-- Witness for C5: empty `to` with a non-empty subject names "to"; non-empty
`to` with an empty subject names the subject. -/
theorem send_required_fields_order_witness :
    send_message (fun _ _ => "OK") "" "Hello" "Body" "" "" "" =
      Except.error (MailError.validation "Recipient email (to) is required")
  ∧ send_message (fun _ _ => "OK") "user@example.com" "" "Body" "" "" "" =
      Except.error (MailError.validation "Subject is required") :=
  ⟨((send_required_fields_order (fun _ _ => "OK") (fun _ _ => "X") "" "Hello"
      "Body" "" "" "").1 rfl).1,
   ((send_required_fields_order (fun _ _ => "OK") (fun _ _ => "X")
      "user@example.com" "" "Body" "" "" "").2 (by decide) rfl).1⟩

/-- C9: empty raw text from the external invocation parses to an empty record
list — the list-emails operation returns an empty list rather than an
error, and the email-lines, accounts and mailboxes parsers all map empty
text to the empty list. -/
theorem empty_output_empty_records (limit : Option Int)
    (status account mailbox query : Option String) :
    list_emails (fun _ _ => "") limit status account mailbox query = Except.ok []
  ∧ parse_email_lines "" = []
  ∧ parse_accounts "" = []
  ∧ parse_mailboxes "" = [] := by
  have hs : hasErrorSentinel "" = false := by decide
  have hp : parse_email_lines "" = [] := by decide
  refine ⟨?_, hp, by decide, by decide⟩
  simp [list_emails, hs, hp]

/-- C10: in the release helper's detect command, `release_needed` is true iff
the previous version is absent (the `git show` text is unavailable or the
version cannot be loaded from it) or differs from the current version, and
false exactly when both versions exist and are equal. -/
theorem release_needed_iff (gitShow : Option String)
    (loadVersion : String → Option String) (current : String) :
    (detect_release_needed (previous_version gitShow loadVersion) current = true ↔
      previous_version gitShow loadVersion = none ∨
        ∃ p, previous_version gitShow loadVersion = some p ∧ p ≠ current)
  ∧ (detect_release_needed (previous_version gitShow loadVersion) current = false ↔
      previous_version gitShow loadVersion = some current)
  ∧ (previous_version gitShow loadVersion = none ↔
      gitShow = none ∨ ∃ t, gitShow = some t ∧ loadVersion t = none) := by
  refine ⟨?_, ?_, ?_⟩
  · cases h : previous_version gitShow loadVersion with
    | none => simp [detect_release_needed]
    | some p =>
      by_cases hp : p = current <;> simp [detect_release_needed, hp]
  · cases h : previous_version gitShow loadVersion with
    | none => simp [detect_release_needed]
    | some p =>
      by_cases hp : p = current <;> simp [detect_release_needed, hp]
  · cases gitShow with
    | none => simp [previous_version]
    | some t => simp [previous_version]

theorem mem_joinBy {c : Char} {pairs : List (Char × List Char)}
    {first : List Char} (h : c ∈ joinBy pairs first) :
    c ∈ first ∨ ∃ q ∈ pairs, c = q.1 ∨ c ∈ q.2 := by
  rcases List.mem_append.mp h with h | h
  · exact Or.inl h
  · rcases List.mem_flatMap.mp h with ⟨q, hq, hc⟩
    rcases List.mem_cons.mp hc with h | h
    · exact Or.inr ⟨q, hq, Or.inl h⟩
    · exact Or.inr ⟨q, hq, Or.inr h⟩

theorem mem_tabJoinL {c : Char} {fs : List (List Char)}
    (h : c ∈ tabJoinL fs) : c = '\t' ∨ ∃ f ∈ fs, c ∈ f := by
  cases fs with
  | nil => simp [tabJoinL] at h
  | cons f rest =>
    simp only [tabJoinL] at h
    rcases mem_joinBy h with h | ⟨q, hq, h⟩
    · exact Or.inr ⟨f, List.mem_cons_self _ _, h⟩
    · rcases List.mem_map.mp hq with ⟨g, hg, rfl⟩
      rcases h with h | h
      · exact Or.inl h
      · exact Or.inr ⟨g, List.mem_cons_of_mem f hg, h⟩

theorem tabJoinL_ne_nil (f g : List Char) (rest : List (List Char)) :
    tabJoinL (f :: g :: rest) ≠ [] := by
  simp [tabJoinL, joinBy]

theorem tabJoinL_ne_nil_of_len7 (fs : List (List Char)) (h : fs.length = 7) :
    tabJoinL fs ≠ [] := by
  cases fs with
  | nil => simp at h
  | cons f rest =>
    cases rest with
    | nil => simp at h
    | cons g rest2 => exact tabJoinL_ne_nil f g rest2

theorem dropTrailingEmpty_pair (a b : List Char) (hb : b ≠ []) :
    dropTrailingEmpty [a, b] = [a, b] := by
  cases b with
  | nil => exact absurd rfl hb
  | cons x xs => simp [dropTrailingEmpty, List.dropWhile, List.isEmpty]

theorem splitBy_tabJoinL (fs : List (List Char)) (hne : fs ≠ [])
    (hfree : ∀ f ∈ fs, ∀ c ∈ f, c ≠ '\t') :
    splitBy (fun c => c = '\t') (tabJoinL fs) = fs := by
  cases fs with
  | nil => exact absurd rfl hne
  | cons f rest =>
    simp only [tabJoinL]
    have hmap : (rest.map (fun g => ('\t', g))).map Prod.snd = rest := by
      simp
    have h := splitBy_joinBy (fun c => c = '\t') (rest.map (fun g => ('\t', g))) f
        ?_ ?_
    · rw [h, hmap]
    · intro a ha c hc
      rw [hmap] at ha
      exact decide_eq_false (hfree a ha c hc)
    · intro q hq
      rcases List.mem_map.mp hq with ⟨g, _, rfl⟩
      simp

/-- C6 (amended): for every two-record tab-delimited raw text block matching
the list-emails schema, parsing yields exactly two mappings whose fields
appear in the schema's declared order; every field value — the read-status
field included — is kept as a string of the schema, not coerced to a
boolean. -/
theorem parse_two_record_block (fs1 fs2 : List (List Char))
    (h1 : fs1.length = 7) (h2 : fs2.length = 7)
    (hfree : ∀ f ∈ fs1 ++ fs2, ∀ c ∈ f, c ≠ '\t' ∧ c ≠ '\n') :
    parse_email_lines (tabJoinL fs1 ++ '\n' :: tabJoinL fs2).asString =
      [emailSchema.zip (fs1.map (fun f => FieldValue.str f.asString)),
       emailSchema.zip (fs2.map (fun f => FieldValue.str f.asString))]
  ∧ (emailSchema.zip (fs1.map (fun f => FieldValue.str f.asString))).map
      Prod.fst = emailSchema
  ∧ (emailSchema.zip (fs2.map (fun f => FieldValue.str f.asString))).map
      Prod.fst = emailSchema
  ∧ ∀ v ∈ (emailSchema.zip
      (fs1.map (fun f => FieldValue.str f.asString))).map Prod.snd,
      ∃ s, v = FieldValue.str s := by
  have hfree1 : ∀ f ∈ fs1, ∀ c ∈ f, c ≠ '\t' ∧ c ≠ '\n' :=
    fun f hf => hfree f (List.mem_append_left _ hf)
  have hfree2 : ∀ f ∈ fs2, ∀ c ∈ f, c ≠ '\t' ∧ c ≠ '\n' :=
    fun f hf => hfree f (List.mem_append_right _ hf)
  have hne1 : fs1 ≠ [] := by rintro rfl; simp at h1
  have hne2 : fs2 ≠ [] := by rintro rfl; simp at h2
  have hnl1 : ∀ c ∈ tabJoinL fs1, (fun c => (c = '\n' : Bool)) c = false := by
    intro c hc
    rcases mem_tabJoinL hc with rfl | ⟨f, hf, hcf⟩
    · decide
    · exact decide_eq_false (hfree1 f hf c hcf).2
  have hnl2 : ∀ c ∈ tabJoinL fs2, (fun c => (c = '\n' : Bool)) c = false := by
    intro c hc
    rcases mem_tabJoinL hc with rfl | ⟨f, hf, hcf⟩
    · decide
    · exact decide_eq_false (hfree2 f hf c hcf).2
  have hsplitnl : splitBy (fun c => c = '\n')
      (tabJoinL fs1 ++ '\n' :: tabJoinL fs2) = [tabJoinL fs1, tabJoinL fs2] := by
    have hj : tabJoinL fs1 ++ '\n' :: tabJoinL fs2 =
        joinBy [('\n', tabJoinL fs2)] (tabJoinL fs1) := by simp [joinBy]
    have hf : ∀ a ∈ (tabJoinL fs1) :: List.map Prod.snd [('\n', tabJoinL fs2)],
        ∀ c ∈ a, (fun c => (c = '\n' : Bool)) c = false := by
      intro a ha c hc
      simp only [List.map_cons, List.map_nil] at ha
      rcases List.mem_cons.mp ha with rfl | ha
      · exact hnl1 c hc
      · rcases List.mem_cons.mp ha with rfl | ha
        · exact hnl2 c hc
        · simp at ha
    have hsgn : ∀ q ∈ [('\n', tabJoinL fs2)],
        (fun c => (c = '\n' : Bool)) q.1 = true := by
      intro q hq
      rcases List.mem_cons.mp hq with rfl | hq
      · simp
      · simp at hq
    rw [hj, splitBy_joinBy _ _ _ hf hsgn]
    rfl
  have hfields1 : splitBy (fun c => c = '\t') (tabJoinL fs1) = fs1 :=
    splitBy_tabJoinL fs1 hne1 (fun f hf c hc => (hfree1 f hf c hc).1)
  have hfields2 : splitBy (fun c => c = '\t') (tabJoinL fs2) = fs2 :=
    splitBy_tabJoinL fs2 hne2 (fun f hf c hc => (hfree2 f hf c hc).1)
  refine ⟨?_, ?_, ?_, ?_⟩
  · show (linesOf ((tabJoinL fs1 ++ '\n' :: tabJoinL fs2).asString).data).map
      parseEmailLine = _
    have hdata : ((tabJoinL fs1 ++ '\n' :: tabJoinL fs2).asString).data =
        tabJoinL fs1 ++ '\n' :: tabJoinL fs2 := rfl
    rw [hdata]
    unfold linesOf
    rw [hsplitnl, dropTrailingEmpty_pair _ _ (tabJoinL_ne_nil_of_len7 fs2 h2)]
    simp only [List.map_cons, List.map_nil, parseEmailLine, fieldsOf,
      hfields1, hfields2]
  · exact List.map_fst_zip _ _ (by simp [emailSchema, h1])
  · exact List.map_fst_zip _ _ (by simp [emailSchema, h2])
  · intro v hv
    rw [List.map_snd_zip _ _ (by simp [emailSchema, h1])] at hv
    rcases List.mem_map.mp hv with ⟨f, _, rfl⟩
    exact ⟨f.asString, rfl⟩

/-- Witness for C6 (amended) at the two-record block of
`tests/test_mail.py::test_list_emails_parses_results`. -/
theorem parse_two_record_block_witness :
    parse_email_lines
        "123\t2024-01-01\tSender\t\tUnread\tSubject\tPreview text\n456\t2024-01-02\tAnother\t\tRead\tOther\tMore preview" =
      [[("id", FieldValue.str "123"), ("received", FieldValue.str "2024-01-01"),
        ("from", FieldValue.str "Sender"), ("account", FieldValue.str ""),
        ("status", FieldValue.str "Unread"),
        ("subject", FieldValue.str "Subject"),
        ("body", FieldValue.str "Preview text")],
       [("id", FieldValue.str "456"), ("received", FieldValue.str "2024-01-02"),
        ("from", FieldValue.str "Another"), ("account", FieldValue.str ""),
        ("status", FieldValue.str "Read"), ("subject", FieldValue.str "Other"),
        ("body", FieldValue.str "More preview")]] := by
  have h := (parse_two_record_block
      [("123").data, ("2024-01-01").data, ("Sender").data, ("").data,
        ("Unread").data, ("Subject").data, ("Preview text").data]
      [("456").data, ("2024-01-02").data, ("Another").data, ("").data,
        ("Read").data, ("Other").data, ("More preview").data]
      (by decide) (by decide) (by decide)).1
  have hs : (tabJoinL [("123").data, ("2024-01-01").data, ("Sender").data,
        ("").data, ("Unread").data, ("Subject").data, ("Preview text").data]
      ++ '\n' :: tabJoinL [("456").data, ("2024-01-02").data, ("Another").data,
        ("").data, ("Read").data, ("Other").data,
        ("More preview").data]).asString =
      "123\t2024-01-01\tSender\t\tUnread\tSubject\tPreview text\n456\t2024-01-02\tAnother\t\tRead\tOther\tMore preview" := by
    decide
  rw [hs] at h
  rw [h]
  decide

/-- C6 counterexample: on the exact two-record block asserted by
`tests/test_mail.py::test_list_emails_parses_results`, the parsed
read-status field is the string "Unread", not a boolean — the claim's
boolean coercion does not hold for the tab-delimited parser. -/
theorem parse_status_not_boolean :
    (parse_email_lines
        "123\t2024-01-01\tSender\t\tUnread\tSubject\tPreview text\n456\t2024-01-02\tAnother\t\tRead\tOther\tMore preview").headI.lookup
      "status" = some (FieldValue.str "Unread")
  ∧ ∀ b : Bool,
      (parse_email_lines
          "123\t2024-01-01\tSender\t\tUnread\tSubject\tPreview text\n456\t2024-01-02\tAnother\t\tRead\tOther\tMore preview").headI.lookup
        "status" ≠ some (FieldValue.bool b) := by
  constructor
  · decide
  · decide

end McpMacos
